import Mathlib

/-!
Shallow embedding of `src/mutils/mutations.py` (classes `Mutation` and
`MutationSpace`).  Python strings are modelled as `List Char`; Python
exceptions as an explicit error type threaded through `Except`.
-/

set_option maxRecDepth 4000

namespace Mutils

/-- Python exception kinds raised by the code under `src/mutils/mutations.py`.
`valueError` covers `ValueError` (including the "neither forward nor reverse"
consistency error, which the code raises as a `ValueError`); `typeError`
models `TypeError` (e.g. `len(None)`); `keyError` models `KeyError` from a
dict lookup; `indexError` models `IndexError` from string/tuple indexing;
`notImplementedError` models `NotImplementedError`. -/
inductive PyErr where
  | valueError
  | typeError
  | keyError
  | indexError
  | consistencyError
  | notImplementedError
  deriving DecidableEq, Repr

/-- A Python string, modelled as its list of characters. -/
abbrev PyStr := List Char

/-- Python `','.join(xs)`: comma-join a list of strings. -/
def joinComma : List PyStr → PyStr
  | [] => []
  | [x] => x
  | x :: xs => x ++ ',' :: joinComma xs

/-- `s.split(sep)` for a one-character separator, as Python `str.split`:
splitting the empty string gives `[""]`, and separators at the ends produce
empty fields. -/
def pySplit (sep : Char) : PyStr → List PyStr
  | [] => [[]]
  | c :: cs =>
    if c = sep then [] :: pySplit sep cs
    else
      match pySplit sep cs with
      | [] => [[c]]
      | g :: gs => (c :: g) :: gs

/-- Decimal value of a string of digit characters. -/
def digitsToNat (s : PyStr) : Nat :=
  s.foldl (fun acc c => acc * 10 + (c.toNat - '0'.toNat)) 0

/-- `int(s)` restricted to the digit strings arising from mutation notation:
Python raises `ValueError` on the empty string or a non-digit character.
(Signs and surrounding whitespace never occur in this code's inputs.) -/
def pyInt (s : PyStr) : Except PyErr Nat :=
  if s ≠ [] ∧ s.all Char.isDigit then .ok (digitsToNat s)
  else .error .valueError

/-- The 4-field point-mutation format from the spec's data-model invariant:
first character the wild-type residue, second character the chain id, then a
non-empty run of digits for the position, last character the mutant residue.
Such a string has length at least 4 and its middle part `s[2:-1]` is all
digits. -/
def isPointMutFormat (s : PyStr) : Prop :=
  4 ≤ s.length ∧ ∀ c ∈ (s.drop 2).dropLast, c.isDigit

instance (s : PyStr) : Decidable (isPointMutFormat s) := by
  unfold isPointMutFormat; infer_instance

/-- `tuple(map(f, xs))` for a fallible `f`: Python evaluates left to right and
the first raised exception propagates. -/
def mapExcept (f : α → Except PyErr β) : List α → Except PyErr (List β)
  | [] => .ok []
  | x :: xs =>
    match f x with
    | .error e => .error e
    | .ok y =>
      match mapExcept f xs with
      | .error e => .error e
      | .ok ys => .ok (y :: ys)

/-- `itertools.combinations(l, d)`: all length-`d` subsequences of `l`, in
lexicographic order of the index tuples (the order `itertools` documents). -/
def combinations : Nat → List α → List (List α)
  | 0, _ => [[]]
  | _ + 1, [] => []
  | d + 1, x :: xs => (combinations d xs).map (x :: ·) ++ combinations (d + 1) xs

/-- `itertools.product(*ls)`: cartesian product of the given lists, with the
right-most list varying fastest (standard Python iteration order). -/
def pyProduct : List (List α) → List (List α)
  | [] => [[]]
  | l :: ls => (l.map (fun x => (pyProduct ls).map (x :: ·))).flatten

/-- `class Mutation`: stores the tuple of point-mutation strings. -/
structure Mutation where
  muttuple : List PyStr
  deriving DecidableEq, Repr

namespace Mutation

/-- `Mutation.__init__(mutstr, muttuple)`.  The Python defaults are
`mutstr=''` and `muttuple=()`.  Supplying both non-default arguments raises
`ValueError`; a non-empty `mutstr` is stored as
`tuple(mutstr.replace(' ', '').split(','))` — note `replace(' ', '')`
removes only space characters, not all whitespace.  (The Python-level
`tuple(muttuple)` conversion check is a dynamic-typing concern with no
counterpart in the typed embedding.) -/
def init (mutstr : PyStr) (muttuple : List PyStr) : Except PyErr Mutation :=
  if mutstr ≠ [] ∧ muttuple ≠ [] then .error .valueError
  else if mutstr ≠ [] then .ok ⟨pySplit ',' (mutstr.filter (· ≠ ' '))⟩
  else .ok ⟨muttuple⟩

/-- `Mutation.revert_single(mu) = mu[-1] + mu[1:-1] + mu[0]`; indexing an
empty string raises `IndexError`. -/
def revert_single : PyStr → Except PyErr PyStr
  | [] => .error .indexError
  | c :: cs => .ok ((c :: cs).getLastD c :: (cs.dropLast ++ [c]))

/-- `Mutation.revert()`: maps `revert_single` over the stored tuple and wraps
the result in a new `Mutation` (the receiver is not modified). -/
def revert (m : Mutation) : Except PyErr Mutation :=
  (mapExcept revert_single m.muttuple).map Mutation.mk

/-- `Mutation.rename_chains_single(mu, dct) = mu[:1] + dct[mu[1]] + mu[2:]`.
Evaluation order follows Python: `mu[1]` may raise `IndexError`, then the
dict lookup may raise `KeyError`. -/
def rename_chains_single (mu : PyStr) (dct : List (Char × PyStr)) :
    Except PyErr PyStr :=
  match mu.get? 1 with
  | none => .error .indexError
  | some ch =>
    match dct.lookup ch with
    | none => .error .keyError
    | some v => .ok (mu.take 1 ++ v ++ mu.drop 2)

/-- `Mutation.rename_chains(dct)`: maps `rename_chains_single` over the stored
tuple and wraps the result in a new `Mutation`. -/
def rename_chains (m : Mutation) (dct : List (Char × PyStr)) :
    Except PyErr Mutation :=
  (mapExcept (rename_chains_single · dct) m.muttuple).map Mutation.mk

/-- `Mutation.is_mutation_reversed(pdbfile, model_id)`.  The structure lookup
(`Bio.PDB` parse + `three_to_one`) is an external collaborator, abstracted as
a total function `lookup : chain id → position → one-letter residue code`.
The method uses only the first point mutation: it parses
`mu[0], mu[1], int(mu[2:-1]), mu[-1]`, reads the residue at
`(chain, position)`, returns `false` if it equals the declared wild type,
`true` if it equals the declared mutant, and otherwise raises the
"neither forward nor reverse" `ValueError` (the spec's `ConsistencyError`). -/
def is_mutation_reversed (m : Mutation) (lookup : Char → Nat → Char) :
    Except PyErr Bool :=
  match m.muttuple.head? with
  | none => .error .indexError
  | some mu =>
    match mu.get? 1 with
    | none => .error .indexError
    | some chainid =>
      match pyInt ((mu.drop 2).dropLast) with
      | .error e => .error e
      | .ok pos =>
        let wtres := mu.headD 'X'
        let mutres := mu.getLastD 'X'
        let resname := lookup chainid pos
        if resname = wtres then .ok false
        else if resname = mutres then .ok true
        else .error .valueError

/-- `Mutation.__str__`: the comma-join of `self.muttuple`. -/
def toStr (m : Mutation) : PyStr :=
  joinComma m.muttuple

end Mutation

/-- The `dct` argument of `MutationSpace`: a Python dict from position-key
strings to candidate-residue strings, modelled as an association list in
insertion order (Python dicts preserve insertion order). -/
abbrev MutDict := List (PyStr × PyStr)

/-- A slot list: one list of fully-formed point-mutation strings per position. -/
abbrev Slots := List (List PyStr)

/-- `class MutationSpace`. -/
structure MutationSpace where
  dct : Option MutDict
  lst : Slots
  n_pos : Nat
  deriving DecidableEq, Repr

namespace MutationSpace

/-- `MutationSpace._dict_to_list(dct)`:
`[[pref + mt for mt in mts] for pref, mts in dct.items()]`. -/
def dict_to_list (dct : MutDict) : Slots :=
  dct.map (fun pm => pm.2.map (fun mt => pm.1 ++ [mt]))

/-- `MutationSpace.__init__(dct, lst)` (defaults `None`/`None`): both supplied
raises `ValueError`; only `dct` supplied expands it via `_dict_to_list`; only
`lst` supplied stores it; neither supplied leaves `self.lst = None`, so the
final `self.n_pos = len(self.lst)` raises `TypeError` (`len(None)`). -/
def init (dct : Option MutDict) (lst : Option Slots) :
    Except PyErr MutationSpace :=
  match dct, lst with
  | some _, some _ => .error .valueError
  | some d, none => .ok ⟨some d, dict_to_list d, (dict_to_list d).length⟩
  | none, some l => .ok ⟨none, l, l.length⟩
  | none, none => .error .typeError

/-- The `MutationSpace` built from a dict, i.e. the value returned by
`MutationSpace.init (some dct) none`. -/
def fromDict (dct : MutDict) : MutationSpace :=
  ⟨some dct, dict_to_list dct, (dict_to_list dct).length⟩

/-- The specified-degree case of `MutationSpace.size`:
`retval = 1 if wt else 0`; return it when `d == 0`; otherwise add, over all
`itertools.combinations(range(len(lst)), d)`, the product of the slot sizes
at the chosen indices. -/
def sizeD (lst : Slots) (d : Nat) (wt : Bool) : Nat :=
  if d = 0 then (if wt then 1 else 0)
  else
    (if wt then 1 else 0) +
      ((combinations d (List.range lst.length)).map
        (fun comb => (comb.map (fun i => (lst.getD i []).length)).prod)).sum

/-- `MutationSpace.size(d, wt)` (defaults `d=None`, `wt=False`): with `d`
unspecified it returns `sum(self.size(d) for d in range(1, self.n_pos + 1))`
(each inner call with the default `wt=False`); otherwise `sizeD`. -/
def size (ms : MutationSpace) (d : Option Nat) (wt : Bool) : Nat :=
  match d with
  | none => ((List.range ms.n_pos).map (fun i => sizeD ms.lst (i + 1) false)).sum
  | some dd => sizeD ms.lst dd wt

/-- The degree argument of `MutationSpace.construct`: `none` is Python
`d=None` (full space), `full` is the internal sentinel `d=-1`, and `some k`
is a non-negative requested degree. -/
inductive Degree where
  | none
  | full
  | some (k : Nat)
  deriving DecidableEq, Repr

/-- The `d == -1` path of `MutationSpace.construct`: take
`itertools.product(*lst)` (no "leave wild type" entry appended, since
`d == -1`), drop empty strings from each tuple, and comma-join each tuple.
No identity-removal step runs in this mode. -/
def constructFull (lst : Slots) : List PyStr :=
  (pyProduct lst).map (fun m => joinComma (m.filter (fun s => !s.isEmpty)))

/-- `MutationSpace.construct(d, n)`: `n` supplied raises
`NotImplementedError`; `d == 0` returns `[]`; a positive specified `d`
concatenates `MutationSpace(lst=comb).construct(d=-1)` over
`itertools.combinations(self.lst, d)`; `d=None` appends a `''` entry to every
slot, takes the product, drops empty entries per tuple, comma-joins, and
finally `retval.remove('')` deletes the first (unique) pure-wild-type entry —
`list.remove` raises `ValueError` when no such entry exists. -/
def construct (ms : MutationSpace) (d : Degree) (n : Option Nat) :
    Except PyErr (List PyStr) :=
  match n with
  | some _ => .error .notImplementedError
  | none =>
    match d with
    | .some 0 => .ok []
    | .some (dd + 1) => .ok (((combinations (dd + 1) ms.lst).map constructFull).flatten)
    | .full => .ok (constructFull ms.lst)
    | .none =>
      let strs :=
        (pyProduct (ms.lst.map (fun slot => slot ++ [[]]))).map
          (fun m => joinComma (m.filter (fun s => !s.isEmpty)))
      if ([] : PyStr) ∈ strs then .ok (strs.erase []) else .error .valueError

end MutationSpace


/-! ## Helper lemmas -/

theorem pyProduct_length (ls : List (List α)) :
    (pyProduct ls).length = (ls.map List.length).prod := by
  induction ls with
  | nil => rfl
  | cons l ls ih =>
    simp only [pyProduct, List.length_flatten, List.map_map, Function.comp_def,
      List.length_map, List.map_cons, List.prod_cons, ih]
    rw [List.map_const', List.sum_replicate, smul_eq_mul]

theorem combinations_map (f : α → β) : ∀ (d : Nat) (l : List α),
    combinations d (l.map f) = (combinations d l).map (List.map f)
  | 0, _ => by simp [combinations]
  | _ + 1, [] => by simp [combinations]
  | d + 1, x :: xs => by
    simp only [List.map_cons, combinations, List.map_append, List.map_map,
      combinations_map f d xs, combinations_map f (d + 1) xs]
    rfl

theorem range_map_getD (l : List α) (x0 : α) :
    (List.range l.length).map (fun i => l.getD i x0) = l := by
  induction l with
  | nil => rfl
  | cons x xs ih =>
    rw [List.length_cons, List.range_succ_eq_map, List.map_cons, List.map_map]
    simp only [Function.comp_def, List.getD_cons_zero, List.getD_cons_succ]
    rw [ih]

theorem combinations_nil_of_lt :
    ∀ (d : Nat) (l : List α), l.length < d → combinations d l = []
  | 0, _, h => absurd h (Nat.not_lt_zero _)
  | _ + 1, [], _ => rfl
  | d + 1, x :: xs, h => by
    have h1 : xs.length < d := by simpa using Nat.lt_of_succ_lt_succ h
    have h2 : xs.length < d + 1 := Nat.lt_of_lt_of_le h1 (Nat.le_succ d)
    simp [combinations, combinations_nil_of_lt d xs h1,
      combinations_nil_of_lt (d + 1) xs h2]

theorem sizeD_succ_eq (lst : Slots) (d : Nat) (wt : Bool) :
    MutationSpace.sizeD lst (d + 1) wt =
      (if wt then 1 else 0) +
        ((combinations (d + 1) lst).map
          (fun comb => (comb.map List.length).prod)).sum := by
  have key : (combinations (d + 1) (List.range lst.length)).map
        (fun comb => (comb.map (fun i => (lst.getD i []).length)).prod) =
      (combinations (d + 1) lst).map (fun comb => (comb.map List.length).prod) := by
    conv_rhs => rw [← range_map_getD lst ([] : List PyStr)]
    rw [combinations_map, List.map_map]
    apply List.map_congr_left
    intro comb _
    simp [Function.comp_def, List.map_map]
  unfold MutationSpace.sizeD
  rw [if_neg (Nat.succ_ne_zero d), key]

theorem constructFull_length (lst : Slots) :
    (MutationSpace.constructFull lst).length = (lst.map List.length).prod := by
  unfold MutationSpace.constructFull
  rw [List.length_map, pyProduct_length]

/-! ## Claim theorems -/

/-- C9: constructing a `MutationSpace` with neither a dict nor a slot list
always fails: `self.lst` stays `None` and the final `len(self.lst)` raises
`TypeError`, so no valid empty space is ever produced. -/
theorem init_none_none_raises :
    MutationSpace.init none none = Except.error PyErr.typeError := rfl

/-- C2 counterexample: for the dict `{'YC17': 'AG', 'TA20': 'A'}` and degree
1, `size(degree=1, wt=True)` is 4 while `size(degree=1, wt=False)` is 3, so
the claimed equality of the two at positive degree fails on the code. -/
theorem size_wt_positive_degree_counterexample :
    MutationSpace.size (MutationSpace.fromDict
        [("YC17".data, "AG".data), ("TA20".data, "A".data)]) (some 1) true ≠
      MutationSpace.size (MutationSpace.fromDict
        [("YC17".data, "AG".data), ("TA20".data, "A".data)]) (some 1) false := by
  decide

/-- C2 amended: for every `MutationSpace` and every positive degree `d`,
`size(degree=d, includeWildType=true)` equals
`size(degree=d, includeWildType=false) + 1`: the wild-type flag adds 1
whenever a degree is specified (any degree, not only 0), because the code
initialises the accumulator to 1 before summing the combination products. -/
theorem size_wt_adds_one_at_specified_degree (ms : MutationSpace) (d : Nat)
    (hd : 0 < d) :
    ms.size (some d) true = ms.size (some d) false + 1 := by
  obtain ⟨k, rfl⟩ : ∃ k, d = k + 1 := ⟨d - 1, by omega⟩
  simp [MutationSpace.size, MutationSpace.sizeD]
  omega

/-- Witness for the amended C2 at the example space and degree 1. -/
theorem size_wt_adds_one_witness :
    (0 : Nat) < 1 ∧
    MutationSpace.size (MutationSpace.fromDict
        [("YC17".data, "AG".data), ("TA20".data, "A".data)]) (some 1) true =
      MutationSpace.size (MutationSpace.fromDict
        [("YC17".data, "AG".data), ("TA20".data, "A".data)]) (some 1) false + 1 :=
  ⟨by decide, size_wt_adds_one_at_specified_degree _ 1 (by decide)⟩

/-- C3: for the dict `{'YC17': 'AG', 'TA20': 'A'}` the slot list is
`[['YC17A','YC17G'], ['TA20A']]`; `size(degree=1)` is 3, `size(degree=2)` is
2, `size()` is 5; `construct(degree=1)` is exactly
`['YC17A','YC17G','TA20A']` and `construct(degree=2)` is exactly
`['YC17A,TA20A','YC17G,TA20A']`, in those orders (combinations outermost,
cartesian product with the right-most slot varying fastest innermost). -/
theorem example_space_values :
    MutationSpace.dict_to_list [("YC17".data, "AG".data), ("TA20".data, "A".data)] =
      [["YC17A".data, "YC17G".data], ["TA20A".data]] ∧
    MutationSpace.size (MutationSpace.fromDict
      [("YC17".data, "AG".data), ("TA20".data, "A".data)]) (some 1) false = 3 ∧
    MutationSpace.size (MutationSpace.fromDict
      [("YC17".data, "AG".data), ("TA20".data, "A".data)]) (some 2) false = 2 ∧
    MutationSpace.size (MutationSpace.fromDict
      [("YC17".data, "AG".data), ("TA20".data, "A".data)]) none false = 5 ∧
    MutationSpace.construct (MutationSpace.fromDict
        [("YC17".data, "AG".data), ("TA20".data, "A".data)]) (.some 1) none =
      .ok ["YC17A".data, "YC17G".data, "TA20A".data] ∧
    MutationSpace.construct (MutationSpace.fromDict
        [("YC17".data, "AG".data), ("TA20".data, "A".data)]) (.some 2) none =
      .ok ["YC17A,TA20A".data, "YC17G,TA20A".data] :=
  ⟨by decide, by decide, by decide, by decide, by rfl, by rfl⟩

/-- C10: for every `MutationSpace` (whose `n_pos` is, as `__init__`
guarantees, the length of its slot list) and every degree `d` strictly
greater than `n_pos`, `size(degree=d, wt=False)` returns 0 and
`size(degree=d, wt=True)` returns 1, without raising (the function is total):
`itertools.combinations` of `n_pos` indices taken `d` at a time is empty. -/
theorem size_degree_above_npos (ms : MutationSpace) (d : Nat)
    (hn : ms.n_pos = ms.lst.length) (hd : ms.n_pos < d) :
    ms.size (some d) false = 0 ∧ ms.size (some d) true = 1 := by
  have h : ms.lst.length < d := hn ▸ hd
  have h0 : d ≠ 0 := by omega
  have hc : combinations d (List.range ms.lst.length) = ([] : List (List Nat)) :=
    combinations_nil_of_lt d _ (by simpa using h)
  constructor <;>
    simp [MutationSpace.size, MutationSpace.sizeD, h0, hc]

/-- Witness for C10 at the example space and degree 3. -/
theorem size_degree_above_npos_witness :
    (MutationSpace.fromDict
        [("YC17".data, "AG".data), ("TA20".data, "A".data)]).n_pos =
      (MutationSpace.fromDict
        [("YC17".data, "AG".data), ("TA20".data, "A".data)]).lst.length ∧
    (MutationSpace.fromDict
        [("YC17".data, "AG".data), ("TA20".data, "A".data)]).n_pos < 3 ∧
    MutationSpace.size (MutationSpace.fromDict
        [("YC17".data, "AG".data), ("TA20".data, "A".data)]) (some 3) false = 0 ∧
    MutationSpace.size (MutationSpace.fromDict
        [("YC17".data, "AG".data), ("TA20".data, "A".data)]) (some 3) true = 1 := by
  refine ⟨rfl, by decide, ?_, ?_⟩
  · exact (size_degree_above_npos _ 3 rfl (by decide)).1
  · exact (size_degree_above_npos _ 3 rfl (by decide)).2


theorem revert_single_shape (c1 l1 : Char) (mid : PyStr) :
    Mutation.revert_single (c1 :: (mid ++ [l1])) = .ok (l1 :: (mid ++ [c1])) := by
  show Except.ok ((c1 :: (mid ++ [l1])).getLastD c1 :: ((mid ++ [l1]).dropLast ++ [c1])) = _
  rw [List.dropLast_concat]
  rw [show c1 :: (mid ++ [l1]) = (c1 :: mid) ++ [l1] from (List.cons_append c1 mid [l1]).symm]
  rw [List.getLastD_concat]

theorem exists_shape_of_len (s : PyStr) (h : 2 ≤ s.length) :
    ∃ c1 mid l1, s = c1 :: (mid ++ [l1]) := by
  match s, h with
  | c :: cs, h =>
    have hcs : cs ≠ [] := by
      cases cs
      · simp at h
      · simp
    exact ⟨c, cs.dropLast, cs.getLast hcs, by rw [List.dropLast_append_getLast hcs]⟩

theorem mapExcept_invol (f : α → Except PyErr α) :
    ∀ l : List α, (∀ s ∈ l, ∃ t, f s = .ok t ∧ f t = .ok s) →
      ∃ l2, mapExcept f l = .ok l2 ∧ mapExcept f l2 = .ok l
  | [], _ => ⟨[], rfl, rfl⟩
  | x :: xs, h => by
    obtain ⟨t, hft, hftt⟩ := h x (List.mem_cons_self x xs)
    obtain ⟨l2, h1, h2⟩ := mapExcept_invol f xs (fun s hs => h s (List.mem_cons_of_mem x hs))
    exact ⟨t :: l2, by simp [mapExcept, hft, h1], by simp [mapExcept, hftt, h2]⟩

/-- C1: for every `MutationSpace` built from a dict and every degree
`0 ≤ d ≤ n_pos`, the length of the list returned by `construct(degree=d)`
equals `size(degree=d, wt=False)`; in particular `construct(degree=0)` is the
empty list and `size(degree=0, wt=False)` is 0. -/
theorem construct_length_eq_size (dct : MutDict) (d : Nat)
    (hd : d ≤ (MutationSpace.fromDict dct).n_pos) :
    (MutationSpace.construct (MutationSpace.fromDict dct) (.some d) none).map
        List.length =
      .ok (MutationSpace.size (MutationSpace.fromDict dct) (some d) false) ∧
    MutationSpace.construct (MutationSpace.fromDict dct) (.some 0) none =
      .ok [] ∧
    MutationSpace.size (MutationSpace.fromDict dct) (some 0) false = 0 := by
  refine ⟨?_, rfl, rfl⟩
  cases d with
  | zero => rfl
  | succ k =>
    show Except.ok (((combinations (k + 1) (MutationSpace.fromDict dct).lst).map
        MutationSpace.constructFull).flatten).length = _
    congr 1
    rw [List.length_flatten, List.map_map]
    show _ = MutationSpace.sizeD (MutationSpace.fromDict dct).lst (k + 1) false
    rw [sizeD_succ_eq]
    simp only [Bool.false_eq_true, if_false, Nat.zero_add]
    apply congrArg List.sum
    apply List.map_congr_left
    intro comb _
    exact constructFull_length comb

/-- Witness for C1 at the example space and degree 1. -/
theorem construct_length_eq_size_witness :
    1 ≤ (MutationSpace.fromDict
        [("YC17".data, "AG".data), ("TA20".data, "A".data)]).n_pos ∧
    (MutationSpace.construct (MutationSpace.fromDict
        [("YC17".data, "AG".data), ("TA20".data, "A".data)]) (.some 1) none).map
        List.length =
      .ok (MutationSpace.size (MutationSpace.fromDict
        [("YC17".data, "AG".data), ("TA20".data, "A".data)]) (some 1) false) :=
  ⟨by decide,
    (construct_length_eq_size
      [("YC17".data, "AG".data), ("TA20".data, "A".data)] 1 (by decide)).1⟩

/-- C4: for every `Mutation` whose point-mutation strings satisfy the 4-field
format invariant, `revert` is an involution — `revert (revert m)` recovers
exactly the stored sequence of `m` — and each single revert swaps only the
first and last characters of each point string, leaving the middle (chain id
and position) unchanged.  `revert` returns a new `Mutation` value and, being
a pure function of the receiver, does not mutate it. -/
theorem revert_revert (m : Mutation)
    (h : ∀ s ∈ m.muttuple, isPointMutFormat s) :
    m.revert.bind Mutation.revert = .ok m ∧
    (∀ s ∈ m.muttuple, ∃ c1 mid l1, s = c1 :: (mid ++ [l1]) ∧
      Mutation.revert_single s = .ok (l1 :: (mid ++ [c1]))) := by
  have hsh : ∀ s ∈ m.muttuple, ∃ c1 mid l1, s = c1 :: (mid ++ [l1]) ∧
      Mutation.revert_single s = .ok (l1 :: (mid ++ [c1])) := by
    intro s hs
    obtain ⟨c1, mid, l1, hdec⟩ := exists_shape_of_len s (by
      have := (h s hs).1
      omega)
    exact ⟨c1, mid, l1, hdec, by rw [hdec]; exact revert_single_shape c1 l1 mid⟩
  refine ⟨?_, hsh⟩
  obtain ⟨l2, h1, h2⟩ := mapExcept_invol Mutation.revert_single m.muttuple (by
    intro s hs
    obtain ⟨c1, mid, l1, hdec, hrv⟩ := hsh s hs
    refine ⟨l1 :: (mid ++ [c1]), hrv, ?_⟩
    rw [revert_single_shape l1 c1 mid, hdec])
  have hr1 : m.revert = .ok ⟨l2⟩ := by
    unfold Mutation.revert
    rw [h1]
    rfl
  have hr2 : Mutation.revert ⟨l2⟩ = .ok m := by
    unfold Mutation.revert
    rw [h2]
    rfl
  rw [hr1]
  exact hr2

/-- Witness for C4 at the single point mutation `"YC17T"`. -/
theorem revert_revert_witness :
    isPointMutFormat "YC17T".data ∧
    (Mutation.mk ["YC17T".data]).revert.bind Mutation.revert =
      .ok (Mutation.mk ["YC17T".data]) :=
  ⟨by decide, (revert_revert (Mutation.mk ["YC17T".data]) (by decide)).1⟩


theorem get_one_of_two_le (s : PyStr) (h : 2 ≤ s.length) :
    s.get? 1 = some (s.getD 1 'X') := by
  match s, h with
  | a :: b :: rest, _ => rfl

/-- C6: `is_mutation_reversed` inspects only the first point mutation of the
sequence.  Writing `obs` for the residue the structure lookup reports at that
chain and position, the result is `false` when `obs` equals the declared wild
type, `true` when it instead equals the declared mutant, and the
"neither forward nor reverse" error (`ConsistencyError` in the spec, raised
as a `ValueError`) in every other case; and any two mutations with the same
first point mutation get the same result. -/
theorem is_mutation_reversed_spec (m : Mutation) (mu : PyStr)
    (lookup : Char → Nat → Char)
    (hhead : m.muttuple.head? = some mu) (hfmt : isPointMutFormat mu) :
    m.is_mutation_reversed lookup =
      (if lookup (mu.getD 1 'X') (digitsToNat ((mu.drop 2).dropLast)) =
          mu.headD 'X' then .ok false
       else if lookup (mu.getD 1 'X') (digitsToNat ((mu.drop 2).dropLast)) =
          mu.getLastD 'X' then .ok true
       else .error PyErr.valueError) ∧
    (∀ m2 : Mutation, m2.muttuple.head? = some mu →
      m2.is_mutation_reversed lookup = m.is_mutation_reversed lookup) := by
  obtain ⟨hlen, hdig⟩ := hfmt
  have core : ∀ m2 : Mutation, m2.muttuple.head? = some mu →
      m2.is_mutation_reversed lookup =
        (if lookup (mu.getD 1 'X') (digitsToNat ((mu.drop 2).dropLast)) =
            mu.headD 'X' then .ok false
         else if lookup (mu.getD 1 'X') (digitsToNat ((mu.drop 2).dropLast)) =
            mu.getLastD 'X' then .ok true
         else .error PyErr.valueError) := by
    intro m2 h2
    match mu, hlen, hdig, h2 with
    | a :: b :: rest, hlen, hdig, h2 =>
      have hrl : 2 ≤ rest.length := by
        simpa using hlen
      have hne : rest.dropLast ≠ [] := by
        intro hcon
        have := congrArg List.length hcon
        simp [List.length_dropLast] at this
        omega
      have hall : rest.dropLast.all Char.isDigit = true := by
        apply List.all_eq_true.mpr
        intro c hc
        exact hdig c hc
      have hpy : pyInt (((a :: b :: rest : PyStr).drop 2).dropLast) =
          .ok (digitsToNat rest.dropLast) := by
        show pyInt rest.dropLast = _
        unfold pyInt
        rw [if_pos ⟨hne, hall⟩]
      simp only [Mutation.is_mutation_reversed, h2]
      rw [show ((a :: b :: rest : PyStr).get? 1) = some b from rfl]
      simp only [hpy]
      rfl
  constructor
  · exact core m hhead
  · intro m2 h2
    rw [core m2 h2, core m hhead]

/-- Witness for C6: for `"YC17T"` and a lookup reporting `'Y'` at (C, 17),
the mutation is not reversed. -/
theorem is_mutation_reversed_witness :
    isPointMutFormat "YC17T".data ∧
    (Mutation.mk ["YC17T".data]).is_mutation_reversed (fun _ _ => 'Y') =
      .ok false := by
  refine ⟨by decide, ?_⟩
  rw [(is_mutation_reversed_spec (Mutation.mk ["YC17T".data]) "YC17T".data
    (fun _ _ => 'Y') rfl (by decide)).1]
  rfl

theorem mapExcept_rename_ok (dct : List (Char × PyStr)) :
    ∀ l : List PyStr, (∀ s ∈ l, 2 ≤ s.length) →
      (∀ s ∈ l, (dct.lookup (s.getD 1 'X')).isSome) →
      mapExcept (Mutation.rename_chains_single · dct) l =
        .ok (l.map (fun s =>
          s.take 1 ++ (dct.lookup (s.getD 1 'X')).getD [] ++ s.drop 2))
  | [], _, _ => rfl
  | x :: xs, hl, hk => by
    have hx := get_one_of_two_le x (hl x (List.mem_cons_self x xs))
    obtain ⟨v, hv⟩ : ∃ v, dct.lookup (x.getD 1 'X') = some v :=
      Option.isSome_iff_exists.mp (hk x (List.mem_cons_self x xs))
    have ih := mapExcept_rename_ok dct xs
      (fun s hs => hl s (List.mem_cons_of_mem x hs))
      (fun s hs => hk s (List.mem_cons_of_mem x hs))
    have hsingle : Mutation.rename_chains_single x dct =
        .ok (x.take 1 ++ v ++ x.drop 2) := by
      unfold Mutation.rename_chains_single
      rw [hx]
      simp only [hv]
    simp only [mapExcept, hsingle, ih, List.map_cons]
    rw [hv]
    rfl

theorem mapExcept_rename_err (dct : List (Char × PyStr)) :
    ∀ l : List PyStr, (∀ s ∈ l, 2 ≤ s.length) →
      (∃ s ∈ l, dct.lookup (s.getD 1 'X') = none) →
      mapExcept (Mutation.rename_chains_single · dct) l = .error .keyError
  | [], _, hex => by
    obtain ⟨s, hs, _⟩ := hex
    exact absurd hs (List.not_mem_nil s)
  | x :: xs, hl, hex => by
    have hx := get_one_of_two_le x (hl x (List.mem_cons_self x xs))
    cases hlk : dct.lookup (x.getD 1 'X') with
    | none =>
      have hsingle : Mutation.rename_chains_single x dct = .error .keyError := by
        unfold Mutation.rename_chains_single
        rw [hx]
        simp only [hlk]
      simp [mapExcept, hsingle]
    | some v =>
      have hsingle : Mutation.rename_chains_single x dct =
          .ok (x.take 1 ++ v ++ x.drop 2) := by
        unfold Mutation.rename_chains_single
        rw [hx]
        simp only [hlk]
      have hex2 : ∃ s ∈ xs, dct.lookup (s.getD 1 'X') = none := by
        obtain ⟨s, hs, hsn⟩ := hex
        rcases List.mem_cons.mp hs with rfl | hs2
        · rw [hlk] at hsn
          exact absurd hsn (by simp)
        · exact ⟨s, hs2, hsn⟩
      have ih := mapExcept_rename_err dct xs
        (fun s hs => hl s (List.mem_cons_of_mem x hs)) hex2
      simp [mapExcept, hsingle, ih]

/-- C7: for every `Mutation` (with well-formed point strings of length at
least 2, so the chain-id character exists) and every chain-rename mapping,
`rename_chains` returns a new `Mutation` in which the second character of
each point string is replaced by the mapping value for the old chain id, and
it fails with `KeyError` (the spec's `KeyNotFound`) whenever some point
string's chain id has no entry in the mapping. -/
theorem rename_chains_spec (m : Mutation) (dct : List (Char × PyStr))
    (hlen : ∀ s ∈ m.muttuple, 2 ≤ s.length) :
    ((∀ s ∈ m.muttuple, (dct.lookup (s.getD 1 'X')).isSome) →
      m.rename_chains dct = .ok (Mutation.mk (m.muttuple.map (fun s =>
        s.take 1 ++ (dct.lookup (s.getD 1 'X')).getD [] ++ s.drop 2)))) ∧
    ((∃ s ∈ m.muttuple, dct.lookup (s.getD 1 'X') = none) →
      m.rename_chains dct = .error PyErr.keyError) := by
  constructor
  · intro hk
    unfold Mutation.rename_chains
    rw [mapExcept_rename_ok dct m.muttuple hlen hk]
    rfl
  · intro hex
    unfold Mutation.rename_chains
    rw [mapExcept_rename_err dct m.muttuple hlen hex]
    rfl

/-- Witness for C7: `{'C': 'A'}` sends `"YC17T"` to `"YA17T"`, and the empty
mapping raises `KeyError`. -/
theorem rename_chains_witness :
    2 ≤ "YC17T".data.length ∧
    (Mutation.mk ["YC17T".data]).rename_chains [('C', "A".data)] =
      .ok (Mutation.mk ["YA17T".data]) ∧
    (Mutation.mk ["YC17T".data]).rename_chains [] = .error PyErr.keyError := by
  refine ⟨by decide, ?_, ?_⟩
  · rw [(rename_chains_spec (Mutation.mk ["YC17T".data]) [('C', "A".data)]
      (by decide)).1 (by decide)]
    rfl
  · exact (rename_chains_spec (Mutation.mk ["YC17T".data]) [] (by decide)).2
      ⟨"YC17T".data, List.mem_cons_self "YC17T".data [], rfl⟩


theorem pySplit_ne_nil (sep : Char) (t : PyStr) : pySplit sep t ≠ [] := by
  cases t with
  | nil => simp [pySplit]
  | cons c cs =>
    unfold pySplit
    split
    · exact List.cons_ne_nil _ _
    · split
      · exact List.cons_ne_nil _ _
      · exact List.cons_ne_nil _ _

theorem joinComma_pySplit (t : PyStr) : joinComma (pySplit ',' t) = t := by
  induction t with
  | nil => rfl
  | cons c cs ih =>
    unfold pySplit
    obtain ⟨g, gs, hg⟩ : ∃ g gs, pySplit ',' cs = g :: gs := by
      cases hs : pySplit ',' cs with
      | nil => exact absurd hs (pySplit_ne_nil ',' cs)
      | cons g gs => exact ⟨g, gs, rfl⟩
    by_cases h : c = ','
    · subst h
      rw [if_pos rfl, hg]
      show ([] : PyStr) ++ ',' :: joinComma (g :: gs) = ',' :: cs
      rw [List.nil_append, ← hg, ih]
    · rw [if_neg h, hg]
      cases gs with
      | nil =>
        show c :: g = c :: cs
        rw [hg] at ih
        exact congrArg (c :: ·) ih
      | cons g2 gs2 =>
        show (c :: g) ++ ',' :: joinComma (g2 :: gs2) = c :: cs
        rw [hg] at ih
        rw [List.cons_append]
        exact congrArg (c :: ·) ih

/-- C8 counterexample: for the input `"Y\tC17T"`, which contains a tab (a
whitespace character), the constructor removes only space characters, so the
stored tuple keeps the tab and `str(Mutation(mutstr=s))` differs from `s`
with all whitespace removed — refuting the claim that construction first
removes all whitespace. -/
theorem mutation_init_whitespace_counterexample :
    ('\t').isWhitespace = true ∧
    Mutation.init "Y\tC17T".data [] = .ok (Mutation.mk ["Y\tC17T".data]) ∧
    (Mutation.mk ["Y\tC17T".data]).toStr ≠
      "Y\tC17T".data.filter (fun c => !c.isWhitespace) :=
  ⟨by decide, by rfl, by decide⟩

/-- C8 amended: for every non-empty input string `s`, constructing a
`Mutation` from the string form stores the sequence obtained by removing all
space characters `' '` (only spaces, not all whitespace) from `s` and then
splitting on commas; consequently `str(Mutation(mutstr=s))` equals `s` with
all spaces removed. -/
theorem mutation_init_removes_spaces (s : PyStr) (hs : s ≠ []) :
    Mutation.init s [] = .ok (Mutation.mk (pySplit ',' (s.filter (· ≠ ' ')))) ∧
    (Mutation.mk (pySplit ',' (s.filter (· ≠ ' ')))).toStr =
      s.filter (· ≠ ' ') := by
  constructor
  · unfold Mutation.init
    rw [if_neg (by simp), if_pos hs]
  · show joinComma (pySplit ',' (s.filter (· ≠ ' '))) = s.filter (· ≠ ' ')
    exact joinComma_pySplit _

/-- Witness for the amended C8 at `"Y C17T,TA20A"`. -/
theorem mutation_init_removes_spaces_witness :
    ("Y C17T,TA20A".data : PyStr) ≠ [] ∧
    Mutation.init "Y C17T,TA20A".data [] =
      .ok (Mutation.mk (pySplit ',' ("Y C17T,TA20A".data.filter (· ≠ ' ')))) :=
  ⟨by decide, (mutation_init_removes_spaces "Y C17T,TA20A".data (by decide)).1⟩


theorem joinComma_eq_nil_iff (l : List PyStr) :
    joinComma l = [] ↔ l = [] ∨ l = [[]] := by
  match l with
  | [] => simp [joinComma]
  | [x] => simp [joinComma]
  | x :: y :: ys =>
    constructor
    · intro h
      exact absurd h (by
        show x ++ ',' :: joinComma (y :: ys) ≠ []
        simp)
    · intro h
      rcases h with h | h <;> exact absurd h (by simp)

theorem joinComma_filter_eq_nil (m : List PyStr) :
    joinComma (m.filter (fun s => !s.isEmpty)) = [] ↔ ∀ s ∈ m, s = [] := by
  constructor
  · intro h
    rcases (joinComma_eq_nil_iff _).mp h with hf | hf
    · intro s hs
      by_contra hne
      have hmemf : s ∈ m.filter (fun s => !s.isEmpty) :=
        List.mem_filter.mpr ⟨hs, by simp [List.isEmpty_iff, hne]⟩
      rw [hf] at hmemf
      exact absurd hmemf (List.not_mem_nil s)
    · have hmemf : ([] : PyStr) ∈ m.filter (fun s => !s.isEmpty) := by
        rw [hf]
        exact List.mem_cons_self _ _
      have := (List.mem_filter.mp hmemf).2
      simp at this
  · intro h
    have hf : m.filter (fun s => !s.isEmpty) = [] := by
      apply List.filter_eq_nil_iff.mpr
      intro a ha
      simp [List.isEmpty_iff, h a ha]
    rw [hf]
    rfl

theorem sum_map_ite (q : α → Bool) (C : Nat) :
    ∀ l : List α, (l.map (fun x => if q x then C else 0)).sum = l.countP q * C
  | [] => by simp
  | x :: xs => by
    rw [List.map_cons, List.sum_cons, List.countP_cons, sum_map_ite q C xs]
    cases hq : q x
    · simp [hq]
    · simp [hq]
      ring

theorem countP_pyProduct_allEmpty :
    ∀ ls : List (List PyStr),
      (pyProduct ls).countP (fun m => m.all List.isEmpty) =
        (ls.map (fun slot => slot.countP List.isEmpty)).prod
  | [] => by simp [pyProduct]
  | l :: ls => by
    rw [show pyProduct (l :: ls) =
      (l.map (fun x => (pyProduct ls).map (x :: ·))).flatten from rfl]
    rw [List.countP_flatten, List.map_map]
    have hpt : ∀ x : PyStr,
        ((pyProduct ls).map (x :: ·)).countP (fun m => m.all List.isEmpty) =
          if x.isEmpty then
            (pyProduct ls).countP (fun m => m.all List.isEmpty) else 0 := by
      intro x
      rw [List.countP_map]
      cases hx : x.isEmpty with
      | true =>
        rw [if_pos rfl]
        apply List.countP_congr
        intro m _
        simp [Function.comp_def, List.all_cons, hx]
      | false =>
        rw [if_neg (by simp)]
        rw [show (0 : Nat) =
          (pyProduct ls).countP (fun _ => false) from by simp]
        apply List.countP_congr
        intro m _
        simp [Function.comp_def, List.all_cons, hx]
    simp only [Function.comp_def, hpt]
    rw [sum_map_ite, countP_pyProduct_allEmpty ls, List.map_cons, List.prod_cons]

theorem count_nil_construct_pre (lst : Slots)
    (hsl : ∀ slot ∈ lst, ∀ s ∈ slot, s ≠ []) :
    ((pyProduct (lst.map (fun slot => slot ++ [[]]))).map
      (fun m => joinComma (m.filter (fun s => !s.isEmpty)))).count
        ([] : PyStr) = 1 := by
  rw [List.count_eq_countP, List.countP_map]
  have hcg : ((fun a => a == ([] : PyStr)) ∘
        fun m => joinComma (m.filter (fun s => !s.isEmpty))) =
      fun m : List PyStr => m.all List.isEmpty := by
    funext m
    simp only [Function.comp_def]
    rcases Bool.eq_false_or_eq_true (m.all List.isEmpty) with hb | hb <;> rw [hb]
    · apply beq_iff_eq.mpr
      apply (joinComma_filter_eq_nil m).mpr
      intro s hs
      simpa [List.isEmpty_iff] using List.all_eq_true.mp hb s hs
    · apply beq_eq_false_iff_ne.mpr
      intro hj
      have hall : m.all List.isEmpty = true := by
        apply List.all_eq_true.mpr
        intro s hs
        simp [List.isEmpty_iff, (joinComma_filter_eq_nil m).mp hj s hs]
      rw [hall] at hb
      exact Bool.noConfusion hb
  rw [hcg, countP_pyProduct_allEmpty]
  apply List.prod_eq_one
  intro x hx
  obtain ⟨slot2, hs2, rfl⟩ := List.mem_map.mp hx
  obtain ⟨slot, hslot, rfl⟩ := List.mem_map.mp hs2
  rw [List.countP_append]
  have h0 : slot.countP List.isEmpty = 0 := by
    apply List.countP_eq_zero.mpr
    intro s hs
    simp [List.isEmpty_iff, hsl slot hslot s hs]
  rw [h0]
  rfl


/-- C5: for every `MutationSpace` built from a dict, `construct()` with
unspecified degree never contains the empty string: the product over the
slots with appended empty placeholders yields exactly one pure wild-type
(empty-string) entry, and the final `remove('')` deletes it from the
returned list. -/
theorem construct_none_no_empty (dct : MutDict) :
    ((pyProduct ((MutationSpace.fromDict dct).lst.map
        (fun slot => slot ++ [[]]))).map
        (fun m => joinComma (m.filter (fun s => !s.isEmpty)))).count
      ([] : PyStr) = 1 ∧
    MutationSpace.construct (MutationSpace.fromDict dct) .none none =
      .ok (((pyProduct ((MutationSpace.fromDict dct).lst.map
        (fun slot => slot ++ [[]]))).map
        (fun m => joinComma (m.filter (fun s => !s.isEmpty)))).erase []) ∧
    ∀ out, MutationSpace.construct (MutationSpace.fromDict dct) .none none =
        .ok out → ([] : PyStr) ∉ out := by
  have hsl : ∀ slot ∈ (MutationSpace.fromDict dct).lst, ∀ s ∈ slot, s ≠ [] := by
    intro slot hslot s hs
    obtain ⟨pm, hpm, rfl⟩ := List.mem_map.mp hslot
    obtain ⟨mt, hmt, rfl⟩ := List.mem_map.mp hs
    simp
  have hcount := count_nil_construct_pre (MutationSpace.fromDict dct).lst hsl
  have hmem : ([] : PyStr) ∈ (pyProduct ((MutationSpace.fromDict dct).lst.map
      (fun slot => slot ++ [[]]))).map
      (fun m => joinComma (m.filter (fun s => !s.isEmpty))) := by
    apply List.count_pos_iff.mp
    rw [hcount]
    exact Nat.one_pos
  have hok : MutationSpace.construct (MutationSpace.fromDict dct) .none none =
      .ok (((pyProduct ((MutationSpace.fromDict dct).lst.map
        (fun slot => slot ++ [[]]))).map
        (fun m => joinComma (m.filter (fun s => !s.isEmpty)))).erase []) := by
    show (if ([] : PyStr) ∈ (pyProduct ((MutationSpace.fromDict dct).lst.map
        (fun slot => slot ++ [[]]))).map
        (fun m => joinComma (m.filter (fun s => !s.isEmpty))) then
          Except.ok (((pyProduct ((MutationSpace.fromDict dct).lst.map
            (fun slot => slot ++ [[]]))).map
            (fun m => joinComma (m.filter (fun s => !s.isEmpty)))).erase [])
        else Except.error PyErr.valueError) = _
    rw [if_pos hmem]
  refine ⟨hcount, hok, ?_⟩
  intro out hout
  rw [hok] at hout
  have hout2 : out = ((pyProduct ((MutationSpace.fromDict dct).lst.map
      (fun slot => slot ++ [[]]))).map
      (fun m => joinComma (m.filter (fun s => !s.isEmpty)))).erase [] := by
    cases hout
    rfl
  rw [hout2]
  apply List.count_eq_zero.mp
  rw [List.count_erase_self, hcount]


/-- Witness for C5 at the example space: the full construction and the
absence of the empty string in it. -/
theorem construct_none_no_empty_witness :
    MutationSpace.construct (MutationSpace.fromDict
        [("YC17".data, "AG".data), ("TA20".data, "A".data)])
      MutationSpace.Degree.none none =
      .ok ["YC17A,TA20A".data, "YC17A".data, "YC17G,TA20A".data,
        "YC17G".data, "TA20A".data] ∧
    ([] : PyStr) ∉ ["YC17A,TA20A".data, "YC17A".data, "YC17G,TA20A".data,
        "YC17G".data, "TA20A".data] :=
  ⟨by rfl,
    (construct_none_no_empty
        [("YC17".data, "AG".data), ("TA20".data, "A".data)]).2.2 _ (by rfl)⟩

end Mutils
